import Mathlib

set_option maxRecDepth 100000

/-!
Shallow embedding of mathics/eval/image.py (helper functions for images):
the FFT-based convolution with edge padding, the Exif metadata translation,
the pixel-buffer dtype conversions, and numpy_flip.  Machine floating point
is modelled exactly: IEEE-754 binary round-to-nearest-even on nonnegative
values is computed on exact fractions represented as numerator/denominator
pairs of naturals, and numpy integer casts are truncating division.
-/

/- ---------------------------------------------------------------------
   Convolution (convolve, image.py lines 37-60)
   --------------------------------------------------------------------- -/

/-- Python slice semantics of ret[p:-p] on a list, used by the final crop of
convolve.  For p = 0 the slice is ret[0:-0] = ret[0:0], the empty list; for
p > 0 it keeps the elements from index p up to (but excluding) index len - p. -/
def cropBoth {α : Type} (xs : List α) (p : ℕ) : List α :=
  if p = 0 then [] else (xs.drop p).take (xs.length - 2 * p)

/-- Edge padding of a 1-D signal (numpy.pad(in1, p, "edge") for a 1-D array):
p copies of the first element in front, p copies of the last element behind.
The empty list is returned unchanged (numpy raises there; convolve is never
called on an empty signal). -/
def edgePad (xs : List ℚ) (p : ℕ) : List ℚ :=
  match xs with
  | [] => []
  | x :: rest => List.replicate p x ++ (x :: rest) ++ List.replicate p ((x :: rest).getLastD x)

/-- Linear (acyclic) convolution of two 1-D signals, of length
a.length + b.length - 1.  In convolve this is realized by rfftn / irfftn at
exactly that combined shape (a cyclic convolution of zero-padded inputs of
that length, which coincides with the linear convolution); the float
arithmetic of the FFT is modelled as exact rational arithmetic. -/
def linConv (a b : List ℚ) : List ℚ :=
  (List.range (a.length + b.length - 1)).map fun i =>
    (Finset.range (i + 1)).sum fun j => a.getD j 0 * b.getD (i - j) 0

/-- Embedding of convolve (image.py lines 37-60) for 1-D signals:
padding = in2.length // 2; when fixed, the signal is edge-padded by padding
on both sides; the FFT product at combined shape s1 + s2 - 1 is the linear
convolution; excess = (ret.length - s1) // 2 + padding and the result is the
Python slice ret[excess:-excess]. -/
def convolve1 (in1 in2 : List ℚ) (fixed : Bool) : List ℚ :=
  let padding := in2.length / 2
  let in1p := if fixed then edgePad in1 padding else in1
  let ret := linConv in1p in2
  let excess := (ret.length - in1p.length) / 2 + padding
  cropBoth ret excess

/-- Shape semantics of numpy.pad(in1, padding, "edge") where padding is the
1-D integer array in2.shape // 2 of length ndim: numpy (\_as\_pairs in
numpy/lib/arraypad.py) turns a size-1 array [p] into (p, p) for every axis
and a size-2 array [a, b] into (a, b) (a before, b after) for every axis; a
1-D array of length 3 or more cannot be broadcast to shape (ndim, 2) and
numpy.pad raises, modelled as none. -/
def padWidthPairs (p : List ℕ) : Option (List (ℕ × ℕ)) :=
  match p with
  | [] => some []
  | [a] => some [(a, a)]
  | [a, b] => some [(a, b), (a, b)]
  | _ => none

/-- Shape of the array returned by convolve (image.py lines 37-60), per
dimension, as a function of the signal shape s1 and kernel shape s2
(s1.length = s2.length = ndim): padding = s2 // 2 elementwise; when fixed
the signal shape grows by the numpy.pad widths of padWidthPairs; the FFT
result shape is s1p + s2 - 1; excess = (ret - s1p) // 2 + padding
elementwise, and each dimension is cropped by the Python slice [p:-p]
(length ret - 2p for p > 0, empty for p = 0).  none models the numpy.pad
broadcast error for 3-D and higher signals. -/
def convolveShape (s1 s2 : List ℕ) (fixed : Bool) : Option (List ℕ) :=
  let padding := s2.map (fun k => k / 2)
  let padded : Option (List ℕ) :=
    if fixed then
      (padWidthPairs padding).map fun pw =>
        (s1.zip pw).map fun t => t.1 + t.2.1 + t.2.2
    else some s1
  padded.map fun s1p =>
    let retShape := (s1p.zip s2).map fun t => t.1 + t.2 - 1
    let halves := (retShape.zip s1p).map fun t => (t.1 - t.2) / 2
    let excess := List.zipWith (fun a b => a + b) halves padding
    (retShape.zip excess).map fun t => if t.2 = 0 then 0 else t.1 - 2 * t.2

/- ---------------------------------------------------------------------
   Exif metadata translation (extract_exif, image.py lines 63-113)
   --------------------------------------------------------------------- -/

/-- Raw Exif value as delivered by PIL: a tuple of integers (a rational when
it has exactly two entries), a byte string, an integer, a text string, or
any other Python value (for instance a float or a nested structure). -/
inductive ExifVal : Type
  | tup (l : List ℤ)
  | bytes (bs : List ℕ)
  | int (i : ℤ)
  | str (s : String)
  | other
  deriving DecidableEq

/-- Translated Exif value.  The two rational constructors record the branch
taken by extract_exif: focal is the FocalLength case (value.round(2), a host
Rational operation kept opaque here), rational is the generic case (the
value wrapped in the host Simplify callback, also opaque); the integer and
string cases embed the value itself. -/
inductive TValue : Type
  | rational (num den : ℤ)
  | focal (num den : ℤ)
  | strV (s : String)
  | intV (i : ℤ)
  deriving DecidableEq

/-- Result of querying the image for metadata: the image has no getexif
attribute, getexif raises, or getexif returns a mapping of tag ids to raw
values (getexif returning None or an empty mapping are both the empty
list, since both are falsy in the code). -/
inductive ExifSource : Type
  | noAccessor
  | raises
  | returns (m : List (ℕ × ExifVal))

/-- Names overriding the ones given by Pillow (image.py lines 29-34). -/
def Exif_names (k : ℕ) : Option String :=
  if k = 37385 then some "FlashInfo"
  else if k = 40960 then some "FlashpixVersion"
  else if k = 40962 then some "PixelXDimension"
  else if k = 40963 then some "PixelYDimension"
  else none

/-- Value classification of extract_exif (image.py lines 95-105): a tuple of
exactly two entries is a rational (rounded when the Pillow name is
FocalLength, otherwise passed through Simplify); a byte string becomes the
space-separated decimal values; an int or str is embedded as is; every
other shape (including tuples of other lengths) is skipped (none). -/
def translateVal (name : String) (v : ExifVal) : Option TValue :=
  match v with
  | .tup [a, b] =>
      some (if name = "FocalLength" then .focal a b else .rational a b)
  | .tup _ => none
  | .bytes bs => some (.strV (String.intercalate " " (bs.map (fun x => toString x))))
  | .int i => some (.intV i)
  | .str s => some (.strV s)
  | .other => none

/-- Translation of one mapping entry (image.py lines 87-110): the Pillow
name is looked up first (name = ExifTags.get(k)) and the entry is skipped
when that lookup fails or yields an empty string (if not name: continue);
only the display name of an emitted entry consults the override table
(Exif_names.get(k, name)).  The standard tag dictionary ExifTags is an
external versioned resource, passed as the parameter tags. -/
def translateEntry (tags : ℕ → Option String) (kv : ℕ × ExifVal) :
    Option (String × TValue) :=
  match tags kv.1 with
  | none => none
  | some name =>
      if name = "" then none
      else (translateVal name kv.2).map fun tv => ((Exif_names kv.1).getD name, tv)

/-- Insertion of one entry into a list that is sorted by ascending tag id. -/
def insertByTag (x : ℕ × ExifVal) : List (ℕ × ExifVal) → List (ℕ × ExifVal)
  | [] => [x]
  | y :: ys => if x.1 ≤ y.1 then x :: y :: ys else y :: insertByTag x ys

/-- Sorting of the mapping entries by ascending tag id, modelling
sorted(exif.items(), key=itemgetter(0)) (image.py line 87). -/
def sortByTag : List (ℕ × ExifVal) → List (ℕ × ExifVal)
  | [] => []
  | x :: xs => insertByTag x (sortByTag xs)

/-- Embedding of extract_exif (image.py lines 63-113).  A missing accessor
falls through the function body (Python returns None); a raising accessor
is caught by the bare except and returns None; a falsy (empty) mapping
returns None.  Otherwise the entries, sorted by ascending tag id, are
translated and the survivors collected; some entries models the returned
Rule[RawExif, entries] wrapper, which is built even when every entry was
skipped. -/
def extract_exif (tags : ℕ → Option String) (src : ExifSource) :
    Option (List (String × TValue)) :=
  match src with
  | .noAccessor => none
  | .raises => none
  | .returns m =>
      if m = [] then none
      else some ((sortByTag m).filterMap (translateEntry tags))

/-- Variant of the entry list of extract_exif that also records the original
tag id of each emitted entry, used to state the ordering contract. -/
def extractEntriesTagged (tags : ℕ → Option String) (m : List (ℕ × ExifVal)) :
    List (ℕ × String × TValue) :=
  (sortByTag m).filterMap fun kv => (translateEntry tags kv).map fun nv => (kv.1, nv)

/- ---------------------------------------------------------------------
   Pixel dtype conversions (pixels_as_float / pixels_as_ubyte /
   pixels_as_uint, image.py lines 136-177), with exact IEEE-754 rounding
   --------------------------------------------------------------------- -/

/-- Number of binary digits of n, with explicit fuel (fuel at least the bit
length; every use below passes fuel 256, enough for all values that occur). -/
def bitLen : ℕ → ℕ → ℕ
  | 0, _ => 0
  | fuel + 1, n => if n = 0 then 0 else bitLen fuel (n / 2) + 1

/-- Floor of the base-2 logarithm of the positive fraction num/den, valid
whenever 2 ^ (-128) ≤ num/den < 2 ^ 128 (amply covering every value that
occurs in the pixel conversions): the bit length of num * 2^128 / den is
shifted back by the scaling. -/
def floorLog2 (num den : ℕ) : ℤ :=
  (bitLen 256 (num * 2 ^ 128 / den) : ℤ) - 1 - 128

/-- Round-to-nearest (ties to even) of the fraction num/den to an integer. -/
def rneDiv (num den : ℕ) : ℕ :=
  let q := num / den
  let r := num % den
  if 2 * r < den then q
  else if den < 2 * r then q + 1
  else if q % 2 = 0 then q else q + 1

/-- IEEE-754 round-to-nearest-even of the nonnegative fraction num/den to a
binary floating-point number with the given number of significand bits
(24 for float32, 53 for float64), returned as an exact fraction
(numerator, power-of-two denominator).  Exponents stay in the normal range
for every value occurring in the pixel conversions, so subnormals and
overflow need not be modelled. -/
def roundFloat (bits num den : ℕ) : ℕ × ℕ :=
  if num = 0 then (0, 1)
  else
    let e : ℤ := floorLog2 num den
    let s : ℤ := (bits : ℤ) - 1 - e
    if 0 ≤ s then (rneDiv (num * 2 ^ s.toNat) den, 2 ^ s.toNat)
    else (rneDiv num (den * 2 ^ (-s).toNat) * 2 ^ (-s).toNat, 1)

/-- Embedding of the uint8 branch of pixels_as_float (image.py lines
140-141): pixels.astype(numpy.float32) / 255.0.  The cast of a byte to
float32 is exact; the float32 division by 255.0 rounds the exact quotient
to 24 significand bits.  The value is returned as an exact fraction. -/
def pixels_as_float_u8 (x : ℕ) : ℕ × ℕ := roundFloat 24 x 255

/-- Embedding of the float branch of pixels_as_ubyte (image.py lines
152-154) on one nonnegative float32 value represented as an exact fraction:
numpy.maximum(numpy.minimum(pixels, 1.0), 0.0) clamps to [0, 1] (the lower
clamp is the identity on the nonnegative values represented here), * 255.0
rounds the exact product to float32, and astype(numpy.uint8) truncates
toward zero (the clamp keeps the product within [0, 255], so the uint8 cast
never wraps). -/
def pixels_as_ubyte_f32 (p : ℕ × ℕ) : ℕ :=
  let c := if p.2 ≤ p.1 then (p.2, p.2) else p
  let b := roundFloat 24 (c.1 * 255) c.2
  b.1 / b.2

/-- Embedding of the uint16 branch of pixels_as_ubyte (image.py lines
157-158): (pixels / 256).astype(numpy.uint8).  The numpy true division of a
uint16 by 256 yields float64 and rounds the exact quotient to 53
significand bits; astype(numpy.uint8) truncates toward zero (the quotient
is below 256 for every uint16 input, so the cast never wraps). -/
def pixels_as_ubyte_u16 (x : ℕ) : ℕ :=
  let b := roundFloat 53 x 256
  b.1 / b.2

/-- Embedding of the boolean branch of pixels_as_uint (image.py lines
174-175): pixels.astype(numpy.uint8) * 65535.  The bool casts to 0 or 1 and
numpy value-based promotion widens the product with the scalar 65535 to
uint16 (the product is at most 65535, so no wrapping occurs). -/
def pixels_as_uint_bool (b : Bool) : ℕ := (if b then 1 else 0) * 65535

/- ---------------------------------------------------------------------
   numpy_flip (image.py lines 123-125)
   --------------------------------------------------------------------- -/

/-- numpy.flipud on a pixel buffer held as a list of rows: reverse the rows. -/
def flipud {α : Type} (pixels : List (List α)) : List (List α) := pixels.reverse

/-- numpy.fliplr on a pixel buffer held as a list of rows: reverse every row. -/
def fliplr {α : Type} (pixels : List (List α)) : List (List α) :=
  pixels.map List.reverse

/-- Embedding of numpy_flip (image.py lines 123-125): the Python tuple
lookup (numpy.flipud, numpy.fliplr)[axis] accepts the indices 0 and -2 for
flipud and 1 and -1 for fliplr and raises IndexError (none) otherwise. -/
def numpy_flip {α : Type} (pixels : List (List α)) (axis : ℤ) :
    Option (List (List α)) :=
  if axis = 0 ∨ axis = -2 then some (flipud pixels)
  else if axis = 1 ∨ axis = -1 then some (fliplr pixels)
  else none

/- ---------------------------------------------------------------------
   Helper lemmas
   --------------------------------------------------------------------- -/

theorem bitLen_le {fuel n k : ℕ} (hn : n < 2 ^ k) (hk : k ≤ fuel) :
    bitLen fuel n ≤ k := by
  induction fuel generalizing n k with
  | zero => simp [bitLen]
  | succ f ih =>
    rw [bitLen]
    split
    · exact Nat.zero_le k
    · rename_i hne
      have hk1 : 1 ≤ k := by
        by_contra h
        have hk0 : k = 0 := by omega
        subst hk0
        simp at hn
        omega
      have h2 : 2 ^ k = 2 * 2 ^ (k - 1) := by
        calc 2 ^ k = 2 ^ (1 + (k - 1)) := by congr 1; omega
        _ = 2 * 2 ^ (k - 1) := by rw [pow_add, pow_one]
      have hn2 : n / 2 < 2 ^ (k - 1) := by omega
      have := ih hn2 (by omega)
      omega

theorem rneDiv_mul_cancel (c d : ℕ) (hd : 0 < d) : rneDiv (c * d) d = c := by
  unfold rneDiv
  have h1 : c * d % d = 0 := Nat.mul_mod_left c d
  have h2 : c * d / d = c := Nat.mul_div_cancel c hd
  simp [h1, h2, hd]

theorem mem_insertByTag {x y : ℕ × ExifVal} :
    ∀ {l : List (ℕ × ExifVal)}, y ∈ insertByTag x l ↔ y = x ∨ y ∈ l := by
  intro l
  induction l with
  | nil => simp [insertByTag]
  | cons a l ih =>
    rw [insertByTag]
    split
    · simp
    · simp only [List.mem_cons, ih]
      tauto

theorem sorted_insertByTag {x : ℕ × ExifVal} {l : List (ℕ × ExifVal)}
    (h : l.Sorted (fun a b => a.1 ≤ b.1)) :
    (insertByTag x l).Sorted (fun a b => a.1 ≤ b.1) := by
  induction l with
  | nil => simp [insertByTag]
  | cons a l ih =>
    rw [List.sorted_cons] at h
    rw [insertByTag]
    split
    · rename_i hle
      rw [List.sorted_cons]
      refine ⟨?_, by rw [List.sorted_cons]; exact h⟩
      intro b hb
      rcases List.mem_cons.mp hb with rfl | hb
      · exact hle
      · exact le_trans hle (h.1 b hb)
    · rename_i hgt
      rw [List.sorted_cons]
      refine ⟨?_, ih h.2⟩
      intro b hb
      rcases mem_insertByTag.mp hb with rfl | hb
      · omega
      · exact h.1 b hb

theorem sorted_sortByTag (m : List (ℕ × ExifVal)) :
    (sortByTag m).Sorted (fun a b => a.1 ≤ b.1) := by
  induction m with
  | nil => simp [sortByTag]
  | cons a m ih => exact sorted_insertByTag ih

theorem mem_sortByTag {y : ℕ × ExifVal} :
    ∀ {m : List (ℕ × ExifVal)}, y ∈ sortByTag m ↔ y ∈ m := by
  intro m
  induction m with
  | nil => simp [sortByTag]
  | cons a m ih =>
    rw [sortByTag, mem_insertByTag, ih]
    simp

theorem entries_eq_tagged_map (tags : ℕ → Option String) :
    ∀ l : List (ℕ × ExifVal),
      l.filterMap (translateEntry tags) =
      (l.filterMap fun kv => (translateEntry tags kv).map fun nv => (kv.1, nv)).map
        Prod.snd := by
  intro l
  induction l with
  | nil => rfl
  | cons a l ih =>
    rw [List.filterMap_cons, List.filterMap_cons]
    cases h : translateEntry tags a with
    | none => simpa using ih
    | some nv => simp [ih]

theorem tagged_fst_sublist (tags : ℕ → Option String) :
    ∀ l : List (ℕ × ExifVal),
      List.Sublist
        ((l.filterMap fun kv => (translateEntry tags kv).map fun nv => (kv.1, nv)).map
          Prod.fst)
        (l.map Prod.fst) := by
  intro l
  induction l with
  | nil => simp
  | cons a l ih =>
    rw [List.filterMap_cons]
    cases h : translateEntry tags a with
    | none => simpa using ih.cons a.1
    | some nv => simpa using ih.cons₂ a.1

/- ---------------------------------------------------------------------
   Claim theorems
   --------------------------------------------------------------------- -/

/-- C1 counterexample: a 1-D signal of 4 samples convolved with a 2-sample
kernel (usePadding = true, kernel dimension 2 within 1 and the padded
signal size 6) yields 5 samples, not the 4 the claim asserts. -/
theorem convolve_same_shape_counterexample :
    convolveShape [4] [2] true = some [5] ∧ some [5] ≠ some ([4] : List ℕ) :=
  ⟨rfl, by decide⟩

/-- C1 amended: with usePadding = true the convolve result keeps exactly the
shape of the unpadded signal when the kernel is square with every dimension
odd and at least 3 (shown for 1-D and 2-D signals; kernels with an even or
size-1 dimension change the shape, and numpy.pad raises for 3-D and higher
signals). -/
theorem convolve_same_shape_odd_square (n₀ n₁ k : ℕ) (hk : k % 2 = 1) (h3 : 3 ≤ k) :
    convolveShape [n₀] [k] true = some [n₀] ∧
    convolveShape [n₀, n₁] [k, k] true = some [n₀, n₁] := by
  obtain ⟨m, rfl⟩ : ∃ m, k = 2 * m + 1 := ⟨k / 2, by omega⟩
  have hm : 1 ≤ m := by omega
  have hdiv : (2 * m + 1) / 2 = m := by omega
  constructor <;>
  · simp [convolveShape, padWidthPairs, hdiv]
    split_ifs <;> omega

/-- C1 witness: the amended statement at the concrete signals [4] and
[4, 5] with the 3-wide square kernel. -/
theorem convolve_same_shape_odd_square_witness :
    (3 % 2 = 1 ∧ 3 ≤ 3) ∧
    convolveShape [4] [3] true = some [4] ∧
    convolveShape [4, 5] [3, 3] true = some [4, 5] :=
  ⟨by decide, convolve_same_shape_odd_square 4 5 3 (by decide) (by decide)⟩

/-- C2 (code bug): convolving any signal with the 1-by-1 identity kernel of
value 1.0 returns an empty array, not the signal: the kernel gives
padding = 0 and excess = 0, and the final crop ret[0:-0] = ret[0:0] removes
everything, with and without padding.  Shown on the signal [5]. -/
theorem convolve_identity_kernel_returns_empty :
    convolve1 [5] [1] true = [] ∧ convolve1 [5] [1] false = [] :=
  ⟨rfl, rfl⟩

/-- C3: a missing metadata accessor, an accessor that raises on query, and
an empty (falsy) mapping all yield the no-metadata result none, for every
standard tag dictionary; no exception escapes extract_exif. -/
theorem extract_exif_failures_yield_none (tags : ℕ → Option String) :
    extract_exif tags .noAccessor = none ∧
    extract_exif tags .raises = none ∧
    extract_exif tags (.returns []) = none :=
  ⟨rfl, rfl, rfl⟩

/-- C4: when the mapping is non-empty but every entry is skipped, the result
is the RawExif wrapper around the empty sequence (some []), not the
no-metadata result none. -/
theorem extract_exif_all_skipped_empty_wrapper (tags : ℕ → Option String)
    (m : List (ℕ × ExifVal)) (h1 : m ≠ [])
    (h2 : ∀ kv ∈ m, translateEntry tags kv = none) :
    extract_exif tags (.returns m) = some [] := by
  rw [extract_exif, if_neg h1]
  have : (sortByTag m).filterMap (translateEntry tags) = [] := by
    rw [List.filterMap_eq_nil_iff]
    intro kv hkv
    exact h2 kv (mem_sortByTag.mp hkv)
  rw [this]

/-- C4 witness: a one-entry mapping whose tag 999 has no name in the
standard dictionary is skipped and the empty wrapper is returned. -/
theorem extract_exif_all_skipped_empty_wrapper_witness :
    extract_exif (fun _ => none) (.returns [(999, ExifVal.int 1)]) = some [] :=
  extract_exif_all_skipped_empty_wrapper (fun _ => none) [(999, ExifVal.int 1)]
    (by decide) (by decide)

/-- C5 counterexample: tag 37385 is in the override table Exif_names, yet
with a standard dictionary lacking it the entry is skipped (the wrapper
came back empty), contradicting the claim that such an entry is emitted. -/
theorem exif_override_without_standard_name_skipped :
    (Exif_names 37385).isSome = true ∧
    extract_exif (fun _ => none) (.returns [(37385, ExifVal.int 1)]) = some [] :=
  ⟨rfl, rfl⟩

/-- C5 amended: an entry is skipped whenever the standard tag dictionary has
no name (or an empty name) for its tag id, regardless of the override
table; for an entry the standard dictionary does name (non-empty name nm)
whose value translates, the emitted display name is the override-table name
when present and nm otherwise. -/
theorem translateEntry_name_resolution :
    (∀ (tags : ℕ → Option String) (k : ℕ) (v : ExifVal),
        tags k = none → translateEntry tags (k, v) = none) ∧
    (∀ (tags : ℕ → Option String) (k : ℕ) (v : ExifVal) (nm : String) (tv : TValue),
        tags k = some nm → nm ≠ "" → translateVal nm v = some tv →
        translateEntry tags (k, v) = some ((Exif_names k).getD nm, tv)) := by
  constructor
  · intro tags k v h
    rw [translateEntry]
    simp only [h]
  · intro tags k v nm tv h hnm htv
    rw [translateEntry]
    simp only [h, if_neg hnm, htv, Option.map_some']

/-- C5 witness: tag 40960 with no standard name is skipped even though the
override table names it, and tag 37385 with standard name Flash is emitted
under the override name (Exif_names 37385).getD Flash = FlashInfo. -/
theorem translateEntry_name_resolution_witness :
    translateEntry (fun _ => none) (40960, ExifVal.int 2) = none ∧
    translateEntry (fun _ => some "Flash") (37385, ExifVal.int 1) =
      some ((Exif_names 37385).getD "Flash", TValue.intV 1) :=
  ⟨translateEntry_name_resolution.1 (fun _ => none) 40960 (ExifVal.int 2) rfl,
   translateEntry_name_resolution.2 (fun _ => some "Flash") 37385 (ExifVal.int 1)
     "Flash" (TValue.intV 1) rfl (by decide) rfl⟩

/-- C6: the entry sequence produced by extract_exif is the tag-annotated
sequence with the tags dropped, and the tags of that sequence are sorted in
ascending order: entries are emitted by ascending original tag id. -/
theorem extract_exif_entries_sorted_by_tag (tags : ℕ → Option String)
    (m : List (ℕ × ExifVal)) (l : List (String × TValue))
    (h : extract_exif tags (.returns m) = some l) :
    l = (extractEntriesTagged tags m).map Prod.snd ∧
    ((extractEntriesTagged tags m).map Prod.fst).Sorted (fun a b => a ≤ b) := by
  constructor
  · rw [extract_exif] at h
    by_cases hm : m = []
    · rw [if_pos hm] at h
      exact absurd h (by simp)
    · rw [if_neg hm, Option.some_inj] at h
      rw [← h, extractEntriesTagged]
      exact entries_eq_tagged_map tags (sortByTag m)
  · have hsorted : ((sortByTag m).map Prod.fst).Sorted (fun a b => a ≤ b) :=
      List.pairwise_map.mpr (sorted_sortByTag m)
    exact List.Pairwise.sublist (tagged_fst_sublist tags (sortByTag m)) hsorted

/-- C6 witness: a two-entry mapping given in descending tag order comes back
in ascending tag order with the names resolved. -/
theorem extract_exif_entries_sorted_by_tag_witness :
    [("A", TValue.intV 1), ("B", TValue.intV 2)] =
      (extractEntriesTagged
        (fun k => if k = 1 then some "A" else if k = 2 then some "B" else none)
        [(2, ExifVal.int 2), (1, ExifVal.int 1)]).map Prod.snd ∧
    ((extractEntriesTagged
        (fun k => if k = 1 then some "A" else if k = 2 then some "B" else none)
        [(2, ExifVal.int 2), (1, ExifVal.int 1)]).map Prod.fst).Sorted
      (fun a b => a ≤ b) :=
  extract_exif_entries_sorted_by_tag
    (fun k => if k = 1 then some "A" else if k = 2 then some "B" else none)
    [(2, ExifVal.int 2), (1, ExifVal.int 1)]
    [("A", TValue.intV 1), ("B", TValue.intV 2)] rfl

/-- C7: converting every one of the 256 uint8 pixel values to float32
(astype(float32) / 255.0) and back (clamp, * 255.0, truncate to uint8)
reproduces the original byte exactly, the IEEE-754 single-precision
roundings included. -/
theorem pixels_u8_float_u8_roundtrip :
    ∀ x : Fin 256, pixels_as_ubyte_f32 (pixels_as_float_u8 x.val) = x.val := by
  decide

/-- C8: the boolean branch of pixels_as_uint maps false to 0 and true to
65535, and the result always fits the uint16 representation. -/
theorem pixels_as_uint_bool_rescale :
    ∀ b : Bool,
      pixels_as_uint_bool b = (if b then 65535 else 0) ∧
      pixels_as_uint_bool b < 65536 := by
  decide

/-- C9: for every uint16 value x, the uint16 branch of pixels_as_ubyte
(float64 true division by 256, then truncation to uint8) returns exactly
the truncating integer quotient x / 256: the float64 division by the power
of two 256 is exact (the rounding step rounds an exact multiple), so the
truncation sees the exact quotient. -/
theorem pixels_as_ubyte_u16_div256 :
    ∀ x : Fin 65536, pixels_as_ubyte_u16 x.val = x.val / 256 := by
  intro x
  obtain ⟨x, hx⟩ := x
  simp only [pixels_as_ubyte_u16]
  by_cases h0 : x = 0
  · subst h0; rfl
  · have hdiv : x * 2 ^ 128 / 256 = x * 2 ^ 120 := by
      rw [show (2 : ℕ) ^ 128 = 2 ^ 120 * 256 from by norm_num, ← mul_assoc,
        Nat.mul_div_cancel _ (by norm_num : (0 : ℕ) < 256)]
    have hBle : bitLen 256 (x * 2 ^ 128 / 256) ≤ 136 := by
      rw [hdiv]
      refine bitLen_le ?_ (by norm_num)
      calc x * 2 ^ 120 ≤ 65535 * 2 ^ 120 := Nat.mul_le_mul (by omega) (le_refl _)
      _ < 2 ^ 136 := by norm_num
    simp only [roundFloat, floorLog2, if_neg h0]
    set B := bitLen 256 (x * 2 ^ 128 / 256) with hB
    have hcast : ((53 : ℕ) : ℤ) - 1 - ((B : ℤ) - 1 - 128) = ((181 - B : ℕ) : ℤ) := by
      omega
    rw [hcast, Int.toNat_natCast, if_pos (Int.natCast_nonneg (181 - B))]
    show rneDiv (x * 2 ^ (181 - B)) 256 / 2 ^ (181 - B) = x / 256
    have hsplit : 181 - B = (173 - B) + 8 := by omega
    rw [hsplit, pow_add]
    have h256 : (2 : ℕ) ^ 8 = 256 := by norm_num
    rw [h256, ← mul_assoc, rneDiv_mul_cancel _ 256 (by norm_num)]
    have hpos : 0 < 2 ^ (173 - B) := Nat.pos_pow_of_pos _ (by norm_num)
    calc x * 2 ^ (173 - B) / (2 ^ (173 - B) * 256)
        = 2 ^ (173 - B) * x / (2 ^ (173 - B) * 256) := by rw [mul_comm x]
    _ = x / 256 := Nat.mul_div_mul_left x 256 hpos

/-- C10: flipping a pixel buffer with axis -1 does not fail: the Python
tuple lookup accepts the negative index and selects numpy.fliplr, exactly
as axis 1 does. -/
theorem numpy_flip_negative_axis {α : Type} (pixels : List (List α)) :
    numpy_flip pixels (-1) = some (fliplr pixels) ∧
    numpy_flip pixels (-1) = numpy_flip pixels 1 :=
  ⟨rfl, rfl⟩
